import Mathlib

/-!
# Verification of the lssh core against its specification

Shallow embedding of the lssh host browser's core: the Host/Group model
(`pkg/types`), the filter engine, grid-cursor arithmetic and bulk-command
aggregation of the TUI model, and the TTL cache layer (`internal/cache`).
Go strings are modelled as `List Char`, Go `int` as `Nat` where the source
only ever holds non-negative values and as `Int` where differences occur,
and Go time instants as `Int` (so `time.Since t = now - t`).
-/

namespace Lssh

/-- `types.Host` (pkg/types/host.go): name, hostname, optional port
(0 means absent) and optional user (empty means absent). -/
structure Host where
  name : List Char
  hostname : List Char
  port : Nat
  user : List Char
deriving DecidableEq, Repr

/-- `types.Group` (pkg/types/group.go): a named node owning an ordered
list of hosts and an ordered list of subgroups. -/
inductive Group where
  | mk (name : List Char) (description : List Char)
       (hosts : List Host) (subGroups : List Group)

/-- The group's display name. -/
def Group.name : Group → List Char
  | .mk n _ _ _ => n

/-- The group's ordered direct hosts. -/
def Group.hosts : Group → List Host
  | .mk _ _ hs _ => hs

/-- The group's ordered subgroups. -/
def Group.subGroups : Group → List Group
  | .mk _ _ _ sg => sg

mutual

/-- `(g *Group) AllHosts()` (pkg/types/group.go:10-19): the group's own
hosts followed by each subgroup's `AllHosts`, depth-first pre-order. -/
def Group.allHosts : Group → List Host
  | .mk _ _ hs sg => hs ++ allHostsForest sg

/-- The concatenation of `AllHosts` over a forest, in order; this is the
loop `for _, subGroup := range g.SubGroups { append(..., subGroup.AllHosts()...) }`. -/
def allHostsForest : List Group → List Host
  | [] => []
  | g :: gs => g.allHosts ++ allHostsForest gs

end

theorem allHostsForest_eq_flatten (gs : List Group) :
    allHostsForest gs = (gs.map Group.allHosts).flatten := by
  induction gs with
  | nil => rfl
  | cons g gs ih => simp [allHostsForest, ih]

theorem allHosts_def (g : Group) :
    g.allHosts = g.hosts ++ (g.subGroups.map Group.allHosts).flatten := by
  cases g with
  | mk n d hs sg => simp [Group.allHosts, Group.hosts, Group.subGroups, allHostsForest_eq_flatten]

/-- **C1** — `AllHosts` is a total, pure, depth-first pre-order traversal:
it returns the group's own hosts first, followed by each subgroup's
`AllHosts` in subgroup order; an empty tree yields the empty sequence; and
its length is the number of direct hosts plus the sum of the `AllHosts`
lengths of the subgroups, recursively. -/
theorem allHosts_preorder_length (g : Group) :
    g.allHosts = g.hosts ++ (g.subGroups.map Group.allHosts).flatten ∧
    g.allHosts.length =
      g.hosts.length + (g.subGroups.map (fun s => s.allHosts.length)).sum ∧
    (∀ n d, (Group.mk n d [] []).allHosts = []) := by
  refine ⟨allHosts_def g, ?_, fun n d => rfl⟩
  rw [allHosts_def g]
  simp only [List.length_append, List.length_flatten, List.map_map]
  rfl

/-! ## Filter engine (internal/tui/model.go final variant, `updateFilteredData`) -/

/-- `strings.ToLower` on the `List Char` string model (per-rune lowering). -/
def lowerChars (s : List Char) : List Char := s.map Char.toLower

/-- Whether `sub` is an initial segment of `s` (the inner comparison used
by substring search). -/
def leadMatch : List Char → List Char → Bool
  | [], _ => true
  | _ :: _, [] => false
  | a :: as, b :: bs => a == b && leadMatch as bs

/-- `strings.Contains(s, sub)`: `sub` occurs contiguously somewhere in `s`
(the empty needle always matches). -/
def containsSub (s sub : List Char) : Bool :=
  match s with
  | [] => leadMatch sub []
  | _ :: rest => leadMatch sub s || containsSub rest sub

/-- The per-host predicate of `updateFilteredData`: the lowered name or the
lowered hostname contains the (already lowered) filter text. -/
def hostMatches (filterLower : List Char) (h : Host) : Bool :=
  containsSub (lowerChars h.name) filterLower ||
    containsSub (lowerChars h.hostname) filterLower

/-- The `filteredHosts` computation of `updateFilteredData`: identity on an
empty filter text, otherwise keep exactly the hosts whose name or hostname
contains the lowered filter text. -/
def updateFilteredHosts (filterText : List Char) (hosts : List Host) : List Host :=
  if filterText = [] then hosts
  else hosts.filter (fun h => hostMatches (lowerChars filterText) h)

theorem containsSub_nil_needle (s : List Char) : containsSub s [] = true := by
  cases s <;> simp [containsSub, leadMatch]

theorem hostMatches_nil (h : Host) : hostMatches (lowerChars []) h = true := by
  simp [hostMatches, lowerChars, containsSub_nil_needle]

/-- **C2** — for every host list and filter string, the filtered host list
is exactly `filter` of the matching predicate over the full list (hence a
subsequence preserving relative order, containing precisely the hosts whose
name or hostname contains the filter text case-insensitively), and the
empty filter string is the identity transform. -/
theorem updateFilteredHosts_spec (filterText : List Char) (hosts : List Host) :
    (updateFilteredHosts filterText hosts).Sublist hosts ∧
    updateFilteredHosts filterText hosts =
      hosts.filter (fun h => hostMatches (lowerChars filterText) h) ∧
    (∀ h, h ∈ updateFilteredHosts filterText hosts ↔
      h ∈ hosts ∧ hostMatches (lowerChars filterText) h = true) ∧
    updateFilteredHosts [] hosts = hosts := by
  have hfe : updateFilteredHosts filterText hosts =
      hosts.filter (fun h => hostMatches (lowerChars filterText) h) := by
    by_cases hf : filterText = []
    · subst hf
      simp [updateFilteredHosts, List.filter_eq_self.mpr (fun a _ => hostMatches_nil a)]
    · simp [updateFilteredHosts, hf]
  refine ⟨?_, hfe, ?_, ?_⟩
  · rw [hfe]; exact List.filter_sublist hosts
  · intro h
    rw [hfe]
    simp [List.mem_filter]
  · simp [updateFilteredHosts]

/-! ## Grid cursor arithmetic (final TUI variant:
`getGridDimensions`, `getCurrentIndex`, `moveUp/Down/Left/Right`,
`renderGrid`). The active item count is passed explicitly; in the source it
is `getCurrentItemCount()` over the active filtered list. -/

/-- `getGridDimensions`: `(0,0)` for an empty list, otherwise the configured
column count (clamped to at least 1) and `ceil(itemCount/cols)` rows.
`gridCols` is a `Nat` since the source only ever stores 3 in it. -/
def gridDims (itemCount gridCols : Nat) : Nat × Nat :=
  if itemCount = 0 then (0, 0)
  else
    let cols := if gridCols ≤ 0 then 1 else gridCols
    ((itemCount + cols - 1) / cols, cols)

/-- `getCurrentIndex`: the linear index `row*cols + col` with the column
count of `getGridDimensions` (0 when that count is 0). -/
def currentIndex (itemCount gridCols row col : Nat) : Nat :=
  let cols := (gridDims itemCount gridCols).2
  if cols ≤ 0 then 0 else row * cols + col

/-- The 2-D cursor `(cursorRow, cursorCol)` of the TUI model. -/
structure Cursor where
  row : Nat
  col : Nat
deriving DecidableEq, Repr

/-- `moveUp`: decrement the row, stopping at 0. -/
def moveUp (c : Cursor) : Cursor :=
  if 0 < c.row then { c with row := c.row - 1 } else c

/-- `moveDown`: increment the row only when below the last row and the
resulting linear index (current index plus `gridCols`) stays in range. -/
def moveDown (itemCount gridCols : Nat) (c : Cursor) : Cursor :=
  let rows := (gridDims itemCount gridCols).1
  if c.row < rows - 1 then
    if currentIndex itemCount gridCols c.row c.col + gridCols < itemCount then
      { c with row := c.row + 1 }
    else c
  else c

/-- `moveLeft`: decrement the column, stopping at 0 (the source's
back-navigation special case at column 0 in `HostView` leaves the cursor
untouched, so it is cursor-equivalent to stopping). -/
def moveLeft (c : Cursor) : Cursor :=
  if 0 < c.col then { c with col := c.col - 1 } else c

/-- `moveRight`: increment the column only when below the last column and
the next linear index stays in range. -/
def moveRight (itemCount gridCols : Nat) (c : Cursor) : Cursor :=
  let cols := (gridDims itemCount gridCols).2
  if c.col < cols - 1 then
    if currentIndex itemCount gridCols c.row c.col + 1 < itemCount then
      { c with col := c.col + 1 }
    else c
  else c

/-- One bounded cursor move. -/
inductive Move where
  | up
  | down
  | left
  | right
deriving DecidableEq, Repr

/-- Apply one bounded move to the cursor. -/
def applyMove (itemCount gridCols : Nat) (c : Cursor) : Move → Cursor
  | .up => moveUp c
  | .down => moveDown itemCount gridCols c
  | .left => moveLeft c
  | .right => moveRight itemCount gridCols c

/-- Apply a sequence of bounded moves, left to right. -/
def runMoves (itemCount gridCols : Nat) (c : Cursor) (ms : List Move) : Cursor :=
  ms.foldl (applyMove itemCount gridCols) c

theorem gridDims_cols (itemCount gridCols : Nat)
    (h1 : 1 ≤ itemCount) (h2 : 1 ≤ gridCols) :
    (gridDims itemCount gridCols).2 = gridCols := by
  have : ¬ itemCount = 0 := by omega
  have : ¬ gridCols ≤ 0 := by omega
  simp [gridDims, *]

theorem currentIndex_eq (itemCount gridCols row col : Nat)
    (h1 : 1 ≤ itemCount) (h2 : 1 ≤ gridCols) :
    currentIndex itemCount gridCols row col = row * gridCols + col := by
  have hc := gridDims_cols itemCount gridCols h1 h2
  unfold currentIndex
  rw [hc]
  have h0 : ¬ gridCols ≤ 0 := by omega
  simp [h0]

theorem applyMove_invariant (itemCount gridCols : Nat)
    (h1 : 1 ≤ itemCount) (h2 : 1 ≤ gridCols) (c : Cursor) (mv : Move)
    (hin : currentIndex itemCount gridCols c.row c.col < itemCount) :
    currentIndex itemCount gridCols
      (applyMove itemCount gridCols c mv).row
      (applyMove itemCount gridCols c mv).col < itemCount := by
  rw [currentIndex_eq _ _ _ _ h1 h2] at hin
  cases mv with
  | up =>
    simp only [applyMove, moveUp]
    split
    · rw [currentIndex_eq _ _ _ _ h1 h2]
      dsimp only
      have : (c.row - 1) * gridCols ≤ c.row * gridCols :=
        Nat.mul_le_mul_right _ (Nat.sub_le _ _)
      omega
    · rw [currentIndex_eq _ _ _ _ h1 h2]; exact hin
  | left =>
    simp only [applyMove, moveLeft]
    split
    · rw [currentIndex_eq _ _ _ _ h1 h2]
      dsimp only
      omega
    · rw [currentIndex_eq _ _ _ _ h1 h2]; exact hin
  | down =>
    simp only [applyMove, moveDown]
    split
    · split
      · rename_i hguard
        rw [currentIndex_eq _ _ _ _ h1 h2] at hguard
        rw [currentIndex_eq _ _ _ _ h1 h2]
        dsimp only
        have : (c.row + 1) * gridCols = c.row * gridCols + gridCols :=
          Nat.succ_mul _ _
        omega
      · rw [currentIndex_eq _ _ _ _ h1 h2]; exact hin
    · rw [currentIndex_eq _ _ _ _ h1 h2]; exact hin
  | right =>
    simp only [applyMove, moveRight]
    split
    · split
      · rename_i hguard
        rw [currentIndex_eq _ _ _ _ h1 h2] at hguard
        rw [currentIndex_eq _ _ _ _ h1 h2]
        dsimp only
        omega
      · rw [currentIndex_eq _ _ _ _ h1 h2]; exact hin
    · rw [currentIndex_eq _ _ _ _ h1 h2]; exact hin

theorem runMoves_invariant (itemCount gridCols : Nat)
    (h1 : 1 ≤ itemCount) (h2 : 1 ≤ gridCols) (ms : List Move) :
    ∀ c, currentIndex itemCount gridCols c.row c.col < itemCount →
      currentIndex itemCount gridCols
        (runMoves itemCount gridCols c ms).row
        (runMoves itemCount gridCols c ms).col < itemCount := by
  induction ms with
  | nil => intro c h; exact h
  | cons mv ms ih =>
    intro c h
    exact ih _ (applyMove_invariant itemCount gridCols h1 h2 c mv h)

/-- **C6** — for a non-empty active item list and a column count of at
least 1, starting from cursor `(0,0)`, after any sequence of the bounded
move operations the linear index `row*cols + col` stays in `[0, itemCount)`
(the lower bound is inherent in the `Nat` model). -/
theorem cursor_index_in_range (itemCount gridCols : Nat)
    (h1 : 1 ≤ itemCount) (h2 : 1 ≤ gridCols) (ms : List Move) :
    currentIndex itemCount gridCols
      (runMoves itemCount gridCols ⟨0, 0⟩ ms).row
      (runMoves itemCount gridCols ⟨0, 0⟩ ms).col < itemCount := by
  apply runMoves_invariant itemCount gridCols h1 h2 ms
  rw [currentIndex_eq _ _ _ _ h1 h2]
  dsimp only
  omega

/-- **C6 witness** — the invariant instantiated on a 5-item, 3-column grid
and a concrete move sequence. -/
theorem cursor_index_in_range_witness :
    currentIndex 5 3
      (runMoves 5 3 ⟨0, 0⟩ [.down, .right, .up, .right, .down, .left]).row
      (runMoves 5 3 ⟨0, 0⟩ [.down, .right, .up, .right, .down, .left]).col < 5 :=
  cursor_index_in_range 5 3 (by decide) (by decide)
    [.down, .right, .up, .right, .down, .left]

/-! ## Grid layout column count (`renderGridView` / `renderGrid`) -/

/-- The width available to the grid in `renderGridView`:
`terminalWidth - detailsPanelWidth - 6` with `detailsPanelWidth = 40`.
`Int` because it goes negative on narrow terminals. -/
def availableWidthOf (terminalWidth : Int) : Int := terminalWidth - 40 - 6

/-- The column count `renderGrid` actually lays the items out with:
the configured `gridCols`, overridden to 2 when the available width is
below 120 and to 1 when it is below 80. -/
def adjustedGridCols (gridCols availableWidth : Int) : Int :=
  let a := gridCols
  let a := if availableWidth < 120 then 2 else a
  let a := if availableWidth < 80 then 1 else a
  a

/-- The row count `renderGrid` uses:
`(itemCount + adjustedGridCols - 1) / adjustedGridCols`. -/
def renderGridRows (itemCount adjCols : Int) : Int :=
  (itemCount + adjCols - 1) / adjCols

/-- **C8 counterexample** — the claim that the layout and the cursor's
linear index use one and the same terminal-width-dependent column count is
false: at the model's default terminal width 80 and configured
`gridCols = 3`, `renderGrid` lays a 4-item list out in 1 column while
`getCurrentIndex` computes the linear index with 3 columns. -/
theorem grid_columns_mismatch :
    adjustedGridCols 3 (availableWidthOf 80) = 1 ∧
    (gridDims 4 3).2 = 3 ∧
    currentIndex 4 3 1 0 = 3 ∧
    ¬ adjustedGridCols 3 (availableWidthOf 80) = ((gridDims 4 3).2 : Int) := by
  refine ⟨by decide, by decide, by decide, by decide⟩

/-- **C8 amended** — `renderGrid` lays the active item list out with a
width-adjusted column count (`gridCols` normally, 2 when the available
width `terminalWidth - 46` is below 120, 1 when it is below 80), with row
count `ceil(itemCount / adjustedCols)`; the cursor's linear index is
`row * gridCols + col` and its row count is `ceil(itemCount / gridCols)`
with the fixed configured `gridCols`, independent of the terminal width;
the two column counts agree whenever the available width is at least 120. -/
theorem grid_layout_and_index_columns (itemCount gridCols row col : Nat) (tw : Int)
    (h1 : 1 ≤ itemCount) (h2 : 1 ≤ gridCols) :
    currentIndex itemCount gridCols row col = row * gridCols + col ∧
    itemCount ≤ (gridDims itemCount gridCols).1 * gridCols ∧
    (gridDims itemCount gridCols).1 * gridCols < itemCount + gridCols ∧
    (availableWidthOf tw < 80 →
      adjustedGridCols gridCols (availableWidthOf tw) = 1) ∧
    (80 ≤ availableWidthOf tw → availableWidthOf tw < 120 →
      adjustedGridCols gridCols (availableWidthOf tw) = 2) ∧
    (120 ≤ availableWidthOf tw →
      adjustedGridCols gridCols (availableWidthOf tw) = gridCols) := by
  have hc := gridDims_cols itemCount gridCols h1 h2
  have hrows : (gridDims itemCount gridCols).1 = (itemCount + gridCols - 1) / gridCols := by
    have hne : ¬ itemCount = 0 := by omega
    have h0 : ¬ gridCols ≤ 0 := by omega
    simp [gridDims, hne, h0]
  refine ⟨currentIndex_eq itemCount gridCols row col h1 h2, ?_, ?_, ?_, ?_, ?_⟩
  · rw [hrows, Nat.mul_comm]
    have hq := Nat.div_add_mod (itemCount + gridCols - 1) gridCols
    have hr := Nat.mod_lt (itemCount + gridCols - 1) (show 0 < gridCols by omega)
    omega
  · rw [hrows, Nat.mul_comm]
    have hq := Nat.div_add_mod (itemCount + gridCols - 1) gridCols
    have hr := Nat.mod_lt (itemCount + gridCols - 1) (show 0 < gridCols by omega)
    omega
  · intro h80
    have h120 : availableWidthOf tw < 120 := by omega
    simp [adjustedGridCols, h80, h120]
  · intro h80 h120
    have : ¬ availableWidthOf tw < 80 := by omega
    simp [adjustedGridCols, h120, this]
  · intro h120
    have hn120 : ¬ availableWidthOf tw < 120 := by omega
    have hn80 : ¬ availableWidthOf tw < 80 := by omega
    simp [adjustedGridCols, hn120, hn80]

/-- **C8 amended witness** — instantiated on a 4-item grid with the
configured 3 columns at terminal width 80. -/
theorem grid_layout_and_index_columns_witness :
    currentIndex 4 3 1 0 = 1 * 3 + 0 ∧
    4 ≤ (gridDims 4 3).1 * 3 ∧
    (gridDims 4 3).1 * 3 < 4 + 3 ∧
    (availableWidthOf 80 < 80 → adjustedGridCols 3 (availableWidthOf 80) = 1) ∧
    (80 ≤ availableWidthOf 80 → availableWidthOf 80 < 120 →
      adjustedGridCols 3 (availableWidthOf 80) = 2) ∧
    (120 ≤ availableWidthOf 80 → adjustedGridCols 3 (availableWidthOf 80) = 3) :=
  grid_layout_and_index_columns 4 3 1 0 80 (by decide) (by decide)

/-! ## Cache layer (internal/cache/cache.go). The persisted file for this
provider's cache key is modelled as an `Option CacheEntry` (a missing or
corrupt/unparsable file is `none`, exactly how `loadFromCache` errors are
consumed); JSON serialization round-tripping is abstracted away. Time
instants are `Int`, so `time.Since(t) = now - t`. -/

/-- `cacheEntry`: the persisted forest with its write timestamp. -/
structure CacheEntry where
  groups : List Group
  timestamp : Int

/-- The `CachedProvider` state relevant to a fetch: the persisted entry for
its key, the TTL, and the session's stale-acceptance flag. -/
structure CacheState where
  entry : Option CacheEntry
  ttl : Int
  useExpiredCache : Bool

/-- The host count `GetGroups` computes before caching:
`totalHosts += len(group.AllHosts())` over the forest. -/
def totalHostsOf (groups : List Group) : Nat :=
  (groups.map (fun g => g.allHosts.length)).sum

/-- Outcome of one `GetGroups` call: the returned value or error, the
persisted entry afterwards, and whether the underlying source was invoked. -/
structure FetchOutcome where
  result : Except (List Char) (List Group)
  entry : Option CacheEntry
  sourceInvoked : Bool

/-- The fall-through path of `GetGroups` after a cache miss or a stale
entry: invoke the source; on error propagate it without touching the
cache; on success persist a fresh entry exactly when the forest contains
at least one host. -/
def fetchFromSource (cs : CacheState) (now : Int)
    (source : Except (List Char) (List Group)) : FetchOutcome :=
  match source with
  | .error e => ⟨.error e, cs.entry, true⟩
  | .ok groups =>
    if 0 < totalHostsOf groups then ⟨.ok groups, some ⟨groups, now⟩, true⟩
    else ⟨.ok groups, cs.entry, true⟩

/-- `(cp *CachedProvider) GetGroups` (cache.go:51-76): return the persisted
forest when the entry loads and is fresh (`now - timestamp < ttl`) or the
session accepted staleness; otherwise fall through to the source. The
source's would-be answer is passed as a value and `sourceInvoked` records
whether the code path reaches it. -/
def getGroups (cs : CacheState) (now : Int)
    (source : Except (List Char) (List Group)) : FetchOutcome :=
  match cs.entry with
  | some e =>
    if now - e.timestamp < cs.ttl ∨ cs.useExpiredCache then
      ⟨.ok e.groups, cs.entry, false⟩
    else fetchFromSource cs now source
  | none => fetchFromSource cs now source

/-- **C3** — for a source fetch that succeeds with at least one host:
a first fetch on a cache miss persists the entry, and every subsequent
fetch within the TTL returns the identical stored forest, leaves the entry
unchanged, and does not invoke the underlying source (whatever that source
would now return). -/
theorem cache_fresh_hit_roundtrip (cs : CacheState) (now1 now2 : Int)
    (gs : List Group) (src2 : Except (List Char) (List Group))
    (hmiss : cs.entry = none) (hhosts : 0 < totalHostsOf gs)
    (hfresh : now2 - now1 < cs.ttl) :
    getGroups cs now1 (.ok gs) = ⟨.ok gs, some ⟨gs, now1⟩, true⟩ ∧
    getGroups { cs with entry := some ⟨gs, now1⟩ } now2 src2 =
      ⟨.ok gs, some ⟨gs, now1⟩, false⟩ := by
  constructor
  · simp [getGroups, hmiss, fetchFromSource, hhosts]
  · simp [getGroups]
    intro h
    omega

/-- **C3 witness** — one root group with one host, TTL 24, fetched at time
0 and again at time 1 against a source that would now fail. -/
theorem cache_fresh_hit_roundtrip_witness :
    getGroups ⟨none, 24, false⟩ 0
        (.ok [Group.mk [] [] [⟨[], [], 0, []⟩] []]) =
      ⟨.ok [Group.mk [] [] [⟨[], [], 0, []⟩] []],
        some ⟨[Group.mk [] [] [⟨[], [], 0, []⟩] []], 0⟩, true⟩ ∧
    getGroups ⟨some ⟨[Group.mk [] [] [⟨[], [], 0, []⟩] []], 0⟩, 24, false⟩ 1
        (.error ('x' :: [])) =
      ⟨.ok [Group.mk [] [] [⟨[], [], 0, []⟩] []],
        some ⟨[Group.mk [] [] [⟨[], [], 0, []⟩] []], 0⟩, false⟩ :=
  cache_fresh_hit_roundtrip ⟨none, 24, false⟩ 0 1
    [Group.mk [] [] [⟨[], [], 0, []⟩] []] (.error ('x' :: []))
    rfl (by decide) (by decide)

/-- A fetch misses or is stale: no loadable entry, or an entry outside the
TTL with no session staleness acceptance. -/
def MissOrStale (cs : CacheState) (now : Int) : Prop :=
  cs.entry = none ∨
    (∃ e, cs.entry = some e ∧ ¬ now - e.timestamp < cs.ttl ∧
      cs.useExpiredCache = false)

/-- **C4** — on a fetch that misses or is stale, the persisted entry is
replaced by a fresh one exactly when the source call succeeds with a forest
containing at least one host (a zero-host result is never cached); when the
source call fails, the error is propagated and the persisted entry is left
unchanged. -/
theorem cache_persist_iff_nonempty_success (cs : CacheState) (now : Int)
    (source : Except (List Char) (List Group)) (hms : MissOrStale cs now) :
    (∀ msg, source = .error msg →
      getGroups cs now source = ⟨.error msg, cs.entry, true⟩) ∧
    (∀ gs, source = .ok gs →
      getGroups cs now source =
        ⟨.ok gs, if 0 < totalHostsOf gs then some ⟨gs, now⟩ else cs.entry,
          true⟩) := by
  have hpath : getGroups cs now source = fetchFromSource cs now source := by
    rcases hms with h | ⟨e, he, hstale, huse⟩
    · simp [getGroups, h]
    · simp [getGroups, he, hstale, huse]
  constructor
  · intro msg hsrc
    subst hsrc
    simp [hpath, fetchFromSource]
  · intro gs hsrc
    subst hsrc
    by_cases h : 0 < totalHostsOf gs <;> simp [hpath, fetchFromSource, h]

/-- **C4 witness** — a stale entry (written at time 0, queried at time 30
with TTL 24): a failing source propagates its error and leaves the entry;
the theorem also instantiates on an empty-forest success at a miss. -/
theorem cache_persist_iff_nonempty_success_witness :
    getGroups ⟨some ⟨[], 0⟩, 24, false⟩ 30 (.error ('x' :: [])) =
      ⟨.error ('x' :: []), some ⟨[], 0⟩, true⟩ ∧
    getGroups ⟨none, 24, false⟩ 30 (.ok [Group.mk [] [] [] []]) =
      ⟨.ok [Group.mk [] [] [] []],
        if 0 < totalHostsOf [Group.mk [] [] [] []] then
          some ⟨[Group.mk [] [] [] []], 30⟩
        else none, true⟩ :=
  ⟨(cache_persist_iff_nonempty_success ⟨some ⟨[], 0⟩, 24, false⟩ 30
      (.error ('x' :: []))
      (Or.inr ⟨⟨[], 0⟩, rfl, by decide, rfl⟩)).1 ('x' :: []) rfl,
   (cache_persist_iff_nonempty_success ⟨none, 24, false⟩ 30
      (.ok [Group.mk [] [] [] []]) (Or.inl rfl)).2
      [Group.mk [] [] [] []] rfl⟩

/-! ## Bulk execution engine (final TUI variant: `executeBulkCommand`,
the `bulkCommandFinishedMsg` case of `Update`, `saveBulkResult`).
The Go map `bulkResults` is modelled as an association list with unique
keys; the log file as the list of appended per-host blocks (the wall-clock
timestamps inside the blocks are not modelled); stderr warnings as a
counter. -/

/-- `BulkCommandResult`: per-host outcome record. `Error` is modelled as an
optional message. -/
structure BulkCommandResult where
  host : Host
  output : List Char
  err : Option (List Char)
  done : Bool
deriving DecidableEq, Repr

/-- The key `fmt.Sprintf("%s@%s", host.Name, host.Hostname)`. -/
def hostKey (h : Host) : List Char := h.name ++ '@' :: h.hostname

/-- The `bulkResults` map. -/
abbrev BulkResults := List (List Char × BulkCommandResult)

/-- `bulkCommandFinishedMsg`: one completion event. -/
structure BulkMsg where
  host : Host
  output : List Char
  err : Option (List Char)
deriving DecidableEq, Repr

/-- One appended per-host block of the session log (host identity, raw
output, error if any). -/
structure LogBlock where
  host : Host
  output : List Char
  err : Option (List Char)
deriving DecidableEq, Repr

/-- Controller-side state the completion events act on: the result map,
the appended log blocks, and the count of reported log-append failures. -/
structure BulkState where
  results : BulkResults
  log : List LogBlock
  warnings : Nat
deriving DecidableEq, Repr

/-- The map lookup `m.bulkResults[key]`. -/
def findRes (rs : BulkResults) (k : List Char) : Option BulkCommandResult :=
  match rs with
  | [] => none
  | p :: rest => if p.1 = k then some p.2 else findRes rest k

/-- The in-place mutation `result.Output = ..; result.Error = ..;
result.Done = true` applied at the matching key. -/
def setDoneAt (k out : List Char) (e : Option (List Char))
    (p : List Char × BulkCommandResult) : List Char × BulkCommandResult :=
  if p.1 = k then (p.1, ⟨p.2.host, out, e, true⟩) else p

/-- The `bulkCommandFinishedMsg` case of `Update` (part_006:669-679): if
the key is present, mark that result done with the event's output and
error and append the per-host block to the log (a failed append —
`appendOk = false` — is reported as a warning instead); an absent key
leaves the state untouched. -/
def applyBulkMsg (st : BulkState) (msg : BulkMsg) (appendOk : Bool) : BulkState :=
  match findRes st.results (hostKey msg.host) with
  | some _ =>
    { results := st.results.map (setDoneAt (hostKey msg.host) msg.output msg.err),
      log := if appendOk then st.log ++ [⟨msg.host, msg.output, msg.err⟩] else st.log,
      warnings := if appendOk then st.warnings else st.warnings + 1 }
  | none => st

/-- Apply a sequence of completion events, each with its log-append
outcome, in arrival order. -/
def runBulk (st : BulkState) (events : List (BulkMsg × Bool)) : BulkState :=
  events.foldl (fun s e => applyBulkMsg s e.1 e.2) st

/-- Go map assignment `m[key] = value`: replace the entry at the key when
it is present, otherwise add a new one. -/
def insertRes (rs : BulkResults) (k : List Char) (r : BulkCommandResult) : BulkResults :=
  match rs with
  | [] => [(k, r)]
  | p :: rest => if p.1 = k then (k, r) :: rest else p :: insertRes rest k r

/-- The initialization loop of `executeBulkCommand`: starting from the
fresh empty map, one not-done result per selected host, keyed by
`name@hostname`; a later host whose key collides with an earlier one
overwrites that entry, as Go map assignment does. -/
def initBulkResults (selected : List Host) : BulkResults :=
  selected.foldl (fun m h => insertRes m (hostKey h) ⟨h, [], none, false⟩) []

/-- The progress numerator rendered by `renderBulkCommandView`: the number
of results with `Done == true`. -/
def countDone (rs : BulkResults) : Nat :=
  (rs.filter (fun p => p.2.done)).length

/-- Outcome of `executeBulkCommand`: the result map afterwards, the hosts
a command was dispatched to, and whether `m.err` was set. -/
structure DispatchOutcome where
  results : BulkResults
  dispatched : List Host
  errSet : Bool
deriving DecidableEq, Repr

/-- `executeBulkCommand` (part_006:1037-1085), control flow relevant to
dispatch: an empty selection is a no-op; a failure to resolve the home
directory, create the logs directory, or create the log file (`createOk =
false`) records an error and returns before initializing results or
dispatching; otherwise the results are initialized and one command is
dispatched per selected host. -/
def executeBulkCommand (prior : BulkResults) (selected : List Host)
    (createOk : Bool) : DispatchOutcome :=
  if selected = [] then ⟨prior, [], false⟩
  else if createOk = false then ⟨prior, [], true⟩
  else ⟨initBulkResults selected, selected, false⟩

theorem map_fst_setDoneAt (rs : BulkResults) (k out : List Char)
    (e : Option (List Char)) :
    (rs.map (setDoneAt k out e)).map Prod.fst = rs.map Prod.fst := by
  induction rs with
  | nil => rfl
  | cons p rest ih =>
    simp only [List.map_cons, ih, setDoneAt]
    split <;> simp

theorem findRes_map_setDoneAt_ne (rs : BulkResults) (k k' out : List Char)
    (e : Option (List Char)) (h : k' ≠ k) :
    findRes (rs.map (setDoneAt k out e)) k' = findRes rs k' := by
  induction rs with
  | nil => rfl
  | cons p rest ih =>
    simp only [List.map_cons, findRes, setDoneAt]
    by_cases hpk : p.1 = k
    · have hne : ¬ p.1 = k' := by
        rw [hpk]; exact fun hh => h hh.symm
      have hkk' : ¬ k = k' := fun hh => h hh.symm
      simp [hpk, hne, hkk', ih]
    · by_cases hpk' : p.1 = k'
      · simp [hpk, hpk', h, ih]
      · simp [hpk, hpk', h, ih]

theorem applyBulkMsg_keys (st : BulkState) (msg : BulkMsg) (ok : Bool) :
    (applyBulkMsg st msg ok).results.map Prod.fst = st.results.map Prod.fst := by
  unfold applyBulkMsg
  split
  · exact map_fst_setDoneAt _ _ _ _
  · rfl

theorem findRes_map_setDoneAt_eq (rs : BulkResults) (k out : List Char)
    (e : Option (List Char)) (r : BulkCommandResult)
    (h : findRes rs k = some r) :
    findRes (rs.map (setDoneAt k out e)) k = some ⟨r.host, out, e, true⟩ := by
  induction rs with
  | nil => simp [findRes] at h
  | cons p rest ih =>
    simp only [List.map_cons, findRes, setDoneAt]
    by_cases hpk : p.1 = k
    · simp only [findRes, hpk, if_pos rfl] at h
      cases h
      simp [hpk]
    · simp only [findRes, hpk, if_neg hpk, ite_false] at h
      simp [hpk, ih h]

theorem findRes_eq_none_forall (rs : BulkResults) (k : List Char)
    (h : findRes rs k = none) : ∀ p ∈ rs, p.1 ≠ k := by
  induction rs with
  | nil => intro p hp; simp at hp
  | cons q rest ih =>
    intro p hp
    simp only [findRes] at h
    by_cases hqk : q.1 = k
    · simp [hqk] at h
    · rcases List.mem_cons.mp hp with hpq | hpr
      · subst hpq; exact hqk
      · exact ih (by simpa [hqk] using h) p hpr

theorem mem_applyBulkMsg (st : BulkState) (msg : BulkMsg) (ok : Bool) :
    ∀ p ∈ (applyBulkMsg st msg ok).results,
      p.2.done = true ∨ (p ∈ st.results ∧ p.1 ≠ hostKey msg.host) := by
  intro p hp
  unfold applyBulkMsg at hp
  rcases hfind : findRes st.results (hostKey msg.host) with _ | r
  · rw [hfind] at hp
    exact Or.inr ⟨hp, findRes_eq_none_forall _ _ hfind p hp⟩
  · rw [hfind] at hp
    simp only [List.mem_map] at hp
    obtain ⟨q, hq, hpq⟩ := hp
    by_cases hqk : q.1 = hostKey msg.host
    · left
      rw [← hpq]
      simp [setDoneAt, hqk]
    · right
      rw [← hpq]
      simp only [setDoneAt, if_neg hqk]
      exact ⟨hq, hqk⟩

theorem runBulk_done (events : List (BulkMsg × Bool)) :
    ∀ st, ∀ p ∈ (runBulk st events).results,
      p.2.done = true ∨
        (p ∈ st.results ∧
          p.1 ∉ events.map (fun e => hostKey e.1.host)) := by
  induction events with
  | nil => intro st p hp; exact Or.inr ⟨hp, by simp⟩
  | cons ev evs ih =>
    intro st p hp
    have hstep := ih (applyBulkMsg st ev.1 ev.2) p hp
    rcases hstep with hdone | ⟨hmem, hnot⟩
    · exact Or.inl hdone
    · rcases mem_applyBulkMsg st ev.1 ev.2 p hmem with hdone | ⟨hmem0, hne⟩
      · exact Or.inl hdone
      · refine Or.inr ⟨hmem0, ?_⟩
        simp only [List.map_cons, List.mem_cons, not_or]
        exact ⟨hne, hnot⟩

theorem runBulk_keys (events : List (BulkMsg × Bool)) :
    ∀ st, (runBulk st events).results.map Prod.fst = st.results.map Prod.fst := by
  induction events with
  | nil => intro st; rfl
  | cons ev evs ih =>
    intro st
    rw [show runBulk st (ev :: evs) = runBulk (applyBulkMsg st ev.1 ev.2) evs from rfl,
      ih, applyBulkMsg_keys]

theorem insertRes_of_not_mem (rs : BulkResults) (k : List Char)
    (r : BulkCommandResult) (h : k ∉ rs.map Prod.fst) :
    insertRes rs k r = rs ++ [(k, r)] := by
  induction rs with
  | nil => rfl
  | cons p rest ih =>
    simp only [List.map_cons, List.mem_cons, not_or] at h
    have hne : ¬ p.1 = k := fun hh => h.1 hh.symm
    simp only [insertRes, if_neg hne]
    rw [ih h.2, List.cons_append]

theorem initBulkResults_fold (selected : List Host) :
    ∀ m : BulkResults, (selected.map hostKey).Nodup →
      (∀ h ∈ selected, hostKey h ∉ m.map Prod.fst) →
      selected.foldl (fun m h => insertRes m (hostKey h) ⟨h, [], none, false⟩) m =
        m ++ selected.map (fun h => (hostKey h, ⟨h, [], none, false⟩)) := by
  induction selected with
  | nil => intro m _ _; simp
  | cons h hs ih =>
    intro m hnodup hdisj
    simp only [List.map_cons, List.nodup_cons] at hnodup
    simp only [List.foldl_cons]
    rw [insertRes_of_not_mem m (hostKey h) _ (hdisj h (List.mem_cons_self h hs))]
    have hdisj' : ∀ h' ∈ hs, hostKey h' ∉
        (m ++ [(hostKey h, (⟨h, [], none, false⟩ : BulkCommandResult))]).map Prod.fst := by
      intro h' hh'
      simp only [List.map_append, List.mem_append, List.map_cons, List.map_nil,
        List.mem_singleton, not_or]
      refine ⟨hdisj h' (List.mem_cons_of_mem _ hh'), fun hk => ?_⟩
      exact hnodup.1 (hk ▸ List.mem_map_of_mem hostKey hh')
    rw [ih _ hnodup.2 hdisj']
    simp

theorem initBulkResults_eq_map (selected : List Host)
    (hnodup : (selected.map hostKey).Nodup) :
    initBulkResults selected =
      selected.map (fun h => (hostKey h, ⟨h, [], none, false⟩)) := by
  have := initBulkResults_fold selected [] hnodup (by intro h _; simp)
  simpa [initBulkResults] using this

/-- **C5 amended** — bulk dispatch over a selection of `N` hosts whose
`name@hostname` keys are pairwise distinct initializes exactly `N`
results, keyed by `name@hostname`, each not done; a completion event
updates exactly the one result at its key (all other keys are untouched)
to `{output, err, done = true}`; and after all `N` completion events are
applied, in any arrival order and with any log-append outcomes, exactly
`N` results exist, each `done == true`, so the rendered progress is
`N/N`. (When selected hosts collide on the key, map assignment collapses
them and fewer than `N` results exist.) -/
theorem bulk_dispatch_all_done (prior : BulkResults) (selected : List Host)
    (events : List (BulkMsg × Bool))
    (hsel : selected ≠ [])
    (hnodup : (selected.map hostKey).Nodup)
    (hperm : (events.map fun e => hostKey e.1.host).Perm (selected.map hostKey)) :
    executeBulkCommand prior selected true =
      ⟨initBulkResults selected, selected, false⟩ ∧
    (initBulkResults selected).length = selected.length ∧
    (initBulkResults selected).map Prod.fst = selected.map hostKey ∧
    (∀ p ∈ initBulkResults selected, p.2.done = false) ∧
    (∀ st msg ok k', k' ≠ hostKey msg.host →
      findRes (applyBulkMsg st msg ok : BulkState).results k' = findRes st.results k') ∧
    (∀ st msg ok r, findRes st.results (hostKey msg.host) = some r →
      findRes (applyBulkMsg st msg ok : BulkState).results (hostKey msg.host) =
        some ⟨r.host, msg.output, msg.err, true⟩) ∧
    (runBulk ⟨initBulkResults selected, [], 0⟩ events).results.length = selected.length ∧
    (∀ p ∈ (runBulk ⟨initBulkResults selected, [], 0⟩ events).results,
      p.2.done = true) ∧
    countDone (runBulk ⟨initBulkResults selected, [], 0⟩ events).results =
      selected.length := by
  have heq := initBulkResults_eq_map selected hnodup
  have hkeys0 : (initBulkResults selected).map Prod.fst = selected.map hostKey := by
    rw [heq]
    simp [List.map_map]
  have hdone : ∀ p ∈ (runBulk ⟨initBulkResults selected, [], 0⟩ events).results,
      p.2.done = true := by
    intro p hp
    rcases runBulk_done events ⟨initBulkResults selected, [], 0⟩ p hp with h | ⟨hmem, hnot⟩
    · exact h
    · exact absurd
        (hperm.mem_iff.mpr (hkeys0 ▸ List.mem_map_of_mem Prod.fst hmem)) hnot
  have hlen : (runBulk ⟨initBulkResults selected, [], 0⟩ events).results.length =
      selected.length := by
    have h2 := congrArg List.length (runBulk_keys events ⟨initBulkResults selected, [], 0⟩)
    simpa [heq] using h2
  refine ⟨by simp [executeBulkCommand, hsel], by rw [heq, List.length_map], hkeys0,
    ?_, ?_, ?_, hlen, hdone, ?_⟩
  · intro p hp
    rw [heq] at hp
    simp only [List.mem_map] at hp
    obtain ⟨h, _, hph⟩ := hp
    rw [← hph]
  · intro st msg ok k' hk
    unfold applyBulkMsg
    split
    · exact findRes_map_setDoneAt_ne _ _ _ _ _ hk
    · rfl
  · intro st msg ok r hr
    unfold applyBulkMsg
    rw [hr]
    exact findRes_map_setDoneAt_eq _ _ _ _ _ hr
  · unfold countDone
    rw [List.filter_eq_self.mpr (fun p hp => hdone p hp), hlen]

/-- A concrete host used by the witnesses. -/
def hostA : Host := ⟨'a' :: [], 'a' :: '.' :: 'e' :: 'x' :: [], 0, []⟩

/-- A second concrete host used by the witnesses. -/
def hostB : Host := ⟨'b' :: [], 'b' :: '.' :: 'e' :: 'x' :: [], 0, []⟩

/-- A host whose key collides with [[hostD]]: name `x`, hostname `y@z`. -/
def hostC : Host := ⟨'x' :: [], 'y' :: '@' :: 'z' :: [], 0, []⟩

/-- A host distinct from [[hostC]] with the same `name@hostname` key:
name `x@y`, hostname `z`. -/
def hostD : Host := ⟨'x' :: '@' :: 'y' :: [], 'z' :: [], 0, []⟩

/-- **C5 counterexample** — the claim fails for selections whose hosts
collide on the `name@hostname` key: `hostC` and `hostD` are two distinct
selectable hosts with the same key `x@y@z`, so dispatch initializes only 1
Bulk Result for the 2 selected hosts (map assignment overwrites), and a
single completion already drives the derived progress to 1/1. -/
theorem bulk_duplicate_key_collapses :
    hostC ≠ hostD ∧
    hostKey hostC = hostKey hostD ∧
    (initBulkResults [hostC, hostD]).length = 1 ∧
    ¬ (initBulkResults [hostC, hostD]).length = [hostC, hostD].length ∧
    (runBulk ⟨initBulkResults [hostC, hostD], [], 0⟩
      [(⟨hostC, [], none⟩, true)]).results.length = 1 ∧
    countDone (runBulk ⟨initBulkResults [hostC, hostD], [], 0⟩
      [(⟨hostC, [], none⟩, true)]).results = 1 := by
  decide

/-- **C5 amended witness** — two selected hosts with distinct keys whose
completions arrive in the opposite order (the second with a failed log
append) end with progress 2/2. -/
theorem bulk_dispatch_all_done_witness :
    countDone (runBulk ⟨initBulkResults [hostA, hostB], [], 0⟩
      [(⟨hostB, 'o' :: 'k' :: [], none⟩, true),
       (⟨hostA, [], some ('e' :: [])⟩, false)]).results = [hostA, hostB].length :=
  (bulk_dispatch_all_done [] [hostA, hostB]
    [(⟨hostB, 'o' :: 'k' :: [], none⟩, true),
     (⟨hostA, [], some ('e' :: [])⟩, false)]
    (by decide) (by decide) (by decide)).2.2.2.2.2.2.2.2

/-- **C10** — applying a bulk completion event whose `name@hostname` key is
absent from the result map (for example one arriving after the results
were discarded by switching away from the bulk view) leaves the entire
bulk state unchanged: no result entry is created, no log block is
appended, and no warning is emitted. -/
theorem bulk_absent_key_noop (st : BulkState) (msg : BulkMsg) (appendOk : Bool)
    (h : findRes st.results (hostKey msg.host) = none) :
    applyBulkMsg st msg appendOk = st := by
  simp [applyBulkMsg, h]

/-- **C10 witness** — a completion for `hostA` against a result map holding
only `hostB` is a no-op. -/
theorem bulk_absent_key_noop_witness :
    applyBulkMsg ⟨[(hostKey hostB, ⟨hostB, [], none, false⟩)], [], 0⟩
        ⟨hostA, 'x' :: [], none⟩ true =
      ⟨[(hostKey hostB, ⟨hostB, [], none, false⟩)], [], 0⟩ :=
  bulk_absent_key_noop ⟨[(hostKey hostB, ⟨hostB, [], none, false⟩)], [], 0⟩
    ⟨hostA, 'x' :: [], none⟩ true (by decide)

/-- **C7 counterexample** — the claim that a failure to create the session
log file never prevents execution is false: with one selected host and a
failing log-file creation, `executeBulkCommand` records an error and
dispatches no host at all. -/
theorem bulk_create_failure_blocks_dispatch :
    (executeBulkCommand [] [hostA] false).dispatched = [] ∧
    (executeBulkCommand [] [hostA] false).errSet = true ∧
    [hostA] ≠ ([] : List Host) := by
  decide

/-- **C7 amended** — a failure to append a per-host block to the log file
is reported as a warning and never aborts or alters in-flight execution:
the result map after a completion is identical whether or not its append
succeeded, and the completed host's result is still marked done; however a
failure to create the session log file (or its directory) aborts the bulk
run before dispatch: the error is recorded and no host is dispatched,
while a successful creation dispatches every selected host. -/
theorem bulk_log_failure_semantics :
    (∀ st msg, (applyBulkMsg st msg false : BulkState).results =
      (applyBulkMsg st msg true : BulkState).results) ∧
    (∀ st msg r, findRes st.results (hostKey msg.host) = some r →
      (applyBulkMsg st msg false : BulkState).warnings = st.warnings + 1 ∧
      (applyBulkMsg st msg false : BulkState).log = st.log ∧
      findRes (applyBulkMsg st msg false : BulkState).results (hostKey msg.host) =
        some ⟨r.host, msg.output, msg.err, true⟩) ∧
    (∀ prior sel, sel ≠ ([] : List Host) →
      executeBulkCommand prior sel true = ⟨initBulkResults sel, sel, false⟩) ∧
    (∀ prior sel, sel ≠ ([] : List Host) →
      executeBulkCommand prior sel false = ⟨prior, [], true⟩) := by
  refine ⟨?_, ?_, ?_, ?_⟩
  · intro st msg
    unfold applyBulkMsg
    split <;> rfl
  · intro st msg r hr
    unfold applyBulkMsg
    rw [hr]
    exact ⟨rfl, rfl, findRes_map_setDoneAt_eq _ _ _ _ _ hr⟩
  · intro prior sel hsel
    simp [executeBulkCommand, hsel]
  · intro prior sel hsel
    simp [executeBulkCommand, hsel]

/-- **C7 amended witness** — instantiated on one selected host with a
successful and a failed log-file creation, and on a completion with a
failed append. -/
theorem bulk_log_failure_semantics_witness :
    executeBulkCommand [] [hostA] true =
      ⟨initBulkResults [hostA], [hostA], false⟩ ∧
    executeBulkCommand [] [hostA] false = ⟨([] : BulkResults), [], true⟩ ∧
    (applyBulkMsg ⟨initBulkResults [hostA], [], 0⟩ ⟨hostA, [], none⟩ false :
        BulkState).warnings = 0 + 1 :=
  ⟨bulk_log_failure_semantics.2.2.1 [] [hostA] (by decide),
   bulk_log_failure_semantics.2.2.2 [] [hostA] (by decide),
   (bulk_log_failure_semantics.2.1 ⟨initBulkResults [hostA], [], 0⟩
      ⟨hostA, [], none⟩ ⟨hostA, [], none, false⟩ (by decide)).1⟩

/-! ## Cache fingerprint (`getCacheKey`, cache.go:78-83). The key string
is `fmt.Sprintf("%s:%s:%s", providerType, filePath, provider.Name())`; the
fingerprint is `lssh_` followed by the lowercase hex of the first 8 bytes
of its SHA-256. SHA-256 (FIPS 180-4) is embedded over byte lists with
explicit `% 2^32` arithmetic. -/

/-- Truncation to a 32-bit word. -/
def w32 (n : Nat) : Nat := n % 4294967296

/-- 32-bit right rotation (for inputs below `2^32`). -/
def rotr32 (x n : Nat) : Nat := w32 ((x >>> n) ||| (x <<< (32 - n)))

/-- SHA-256 Σ₀. -/
def bSig0 (x : Nat) : Nat := rotr32 x 2 ^^^ rotr32 x 13 ^^^ rotr32 x 22

/-- SHA-256 Σ₁. -/
def bSig1 (x : Nat) : Nat := rotr32 x 6 ^^^ rotr32 x 11 ^^^ rotr32 x 25

/-- SHA-256 σ₀. -/
def sSig0 (x : Nat) : Nat := rotr32 x 7 ^^^ rotr32 x 18 ^^^ (x >>> 3)

/-- SHA-256 σ₁. -/
def sSig1 (x : Nat) : Nat := rotr32 x 17 ^^^ rotr32 x 19 ^^^ (x >>> 10)

/-- SHA-256 `Ch` (the complement is subtraction from the all-ones word). -/
def chFn (e f g : Nat) : Nat := (e &&& f) ^^^ ((4294967295 - w32 e) &&& g)

/-- SHA-256 `Maj`. -/
def majFn (a b c : Nat) : Nat := (a &&& b) ^^^ (a &&& c) ^^^ (b &&& c)

/-- The 64 SHA-256 round constants (decimal). -/
def shaK : List Nat :=
  [1116352408, 1899447441, 3049323471, 3921009573,
   961987163, 1508970993, 2453635748, 2870763221,
   3624381080, 310598401, 607225278, 1426881987,
   1925078388, 2162078206, 2614888103, 3248222580,
   3835390401, 4022224774, 264347078, 604807628,
   770255983, 1249150122, 1555081692, 1996064986,
   2554220882, 2821834349, 2952996808, 3210313671,
   3336571891, 3584528711, 113926993, 338241895,
   666307205, 773529912, 1294757372, 1396182291,
   1695183700, 1986661051, 2177026350, 2456956037,
   2730485921, 2820302411, 3259730800, 3345764771,
   3516065817, 3600352804, 4094571909, 275423344,
   430227734, 506948616, 659060556, 883997877,
   958139571, 1322822218, 1537002063, 1747873779,
   1955562222, 2024104815, 2227730452, 2361852424,
   2428436474, 2756734187, 3204031479, 3329325298]

/-- The SHA-256 initial hash value (decimal). -/
def shaH0 : List Nat :=
  [1779033703, 3144134277, 1013904242, 2773480762,
   1359893119, 2600822924, 528734635, 1541459225]

/-- `k` big-endian bytes of `n`. -/
def beBytes : Nat → Nat → List Nat
  | 0, _ => []
  | k + 1, n => beBytes k (n / 256) ++ [n % 256]

/-- SHA-256 padding: `0x80`, zeros to 56 mod 64, then the 64-bit
big-endian bit length. -/
def padBytes (ms : List Nat) : List Nat :=
  let zeros := (64 + 56 - ((ms.length + 1) % 64)) % 64
  ms ++ 0x80 :: (List.replicate zeros 0 ++ beBytes 8 (8 * ms.length))

/-- Group bytes into big-endian 32-bit words. -/
def wordsOfBytes : List Nat → List Nat
  | a :: b :: c :: d :: rest =>
    (((a * 256 + b) * 256 + c) * 256 + d) :: wordsOfBytes rest
  | _ => []

/-- Extend the 16-word block to the 64-word message schedule. -/
def extendSchedule : Nat → List Nat → List Nat
  | 0, ws => ws
  | n + 1, ws =>
    extendSchedule n (ws ++ [w32 (sSig1 (ws.getD (ws.length - 2) 0) +
      ws.getD (ws.length - 7) 0 + sSig0 (ws.getD (ws.length - 15) 0) +
      ws.getD (ws.length - 16) 0)])

/-- One compression round on the working variables `[a,b,c,d,e,f,g,h]`. -/
def shaRound (st : List Nat) (kw : Nat × Nat) : List Nat :=
  let a := st.getD 0 0
  let b := st.getD 1 0
  let c := st.getD 2 0
  let d := st.getD 3 0
  let e := st.getD 4 0
  let f := st.getD 5 0
  let g := st.getD 6 0
  let h := st.getD 7 0
  let t1 := w32 (h + bSig1 e + chFn e f g + kw.1 + kw.2)
  let t2 := w32 (bSig0 a + majFn a b c)
  [w32 (t1 + t2), a, b, c, w32 (d + t1), e, f, g]

/-- Compress one 64-byte block into the hash state. -/
def processBlock (hs : List Nat) (block : List Nat) : List Nat :=
  let ws := extendSchedule 48 (wordsOfBytes block)
  let st := (shaK.zip ws).foldl shaRound hs
  List.zipWith (fun x y => w32 (x + y)) hs st

/-- Split a byte list into 64-byte blocks. -/
def toBlocks : List Nat → List (List Nat)
  | [] => []
  | b :: rest => ((b :: rest).take 64) :: toBlocks (rest.drop 63)
termination_by bs => bs.length
decreasing_by simp [List.length_drop]; omega

/-- SHA-256 of a byte list, as 32 bytes. -/
def sha256Bytes (ms : List Nat) : List Nat :=
  (((toBlocks (padBytes ms)).foldl processBlock shaH0).map (beBytes 4)).flatten

/-- UTF-8 encoding of one scalar value (Go strings are UTF-8 bytes). -/
def utf8Char (c : Char) : List Nat :=
  let n := c.toNat
  if n < 128 then [n]
  else if n < 2048 then [192 + n / 64, 128 + n % 64]
  else if n < 65536 then [224 + n / 4096, 128 + n / 64 % 64, 128 + n % 64]
  else [240 + n / 262144, 128 + n / 4096 % 64, 128 + n / 64 % 64, 128 + n % 64]

/-- The UTF-8 bytes of a string (`[]byte(s)` in Go). -/
def utf8Encode (s : List Char) : List Nat := (s.map utf8Char).flatten

/-- One lowercase hex digit. -/
def hexChar (n : Nat) : Char :=
  if n < 10 then Char.ofNat (48 + n) else Char.ofNat (87 + n)

/-- Lowercase hex of a byte list (`%x`). -/
def bytesToHex (bs : List Nat) : List Char :=
  bs.foldr (fun b acc => hexChar (b / 16) :: hexChar (b % 16) :: acc) []

/-- The joined key string
`fmt.Sprintf("%s:%s:%s", providerType, filePath, name)`. -/
def keyData (providerType filePath name : List Char) : List Char :=
  providerType ++ ':' :: filePath ++ ':' :: name

/-- `lssh_` followed by the hex of the first 8 SHA-256 bytes of the key
string (`fmt.Sprintf("lssh_%x", h.Sum(nil)[:8])`). -/
def fingerprintOfKeyData (d : List Char) : List Char :=
  'l' :: 's' :: 's' :: 'h' :: '_' :: bytesToHex ((sha256Bytes (utf8Encode d)).take 8)

/-- `(cp *CachedProvider) getCacheKey()` on the
`(providerType, filePath, providerName)` triple. -/
def getCacheKey (providerType filePath name : List Char) : List Char :=
  fingerprintOfKeyData (keyData providerType filePath name)

/-- **C9 counterexample** — the fingerprint is not injective across
distinct sources: the colon-joined key string is ambiguous, so the triples
`("j", "a:b", "c")` and `("j", "a", "b:c")`, which differ in locator and
name, produce identical fingerprints. -/
theorem getCacheKey_collision :
    getCacheKey ('j' :: []) ('a' :: ':' :: 'b' :: []) ('c' :: []) =
      getCacheKey ('j' :: []) ('a' :: []) ('b' :: ':' :: 'c' :: []) ∧
    ¬ (('a' :: ':' :: 'b' :: [], 'c' :: []) =
        (('a' :: [] : List Char), ('b' :: ':' :: 'c' :: [] : List Char))) := by
  exact ⟨congrArg fingerprintOfKeyData (by decide), by decide⟩

/-- **C9 amended** — the fingerprint is deterministic: equal
`(provider type, source locator, provider name)` triples always yield the
same fingerprint, and more generally equal joined key strings do; but it
is not injective across distinct sources: triples that differ in their
components can collide whenever their colon-joined key strings coincide. -/
theorem getCacheKey_deterministic_not_injective :
    (∀ t p n t' p' n', t = t' → p = p' → n = n' →
      getCacheKey t p n = getCacheKey t' p' n') ∧
    (∀ t p n t' p' n', keyData t p n = keyData t' p' n' →
      getCacheKey t p n = getCacheKey t' p' n') ∧
    (∃ t p n p' n', ¬ (p = p' ∧ n = n') ∧
      getCacheKey t p n = getCacheKey t p' n') := by
  refine ⟨?_, ?_, ?_⟩
  · intro t p n t' p' n' h1 h2 h3
    subst h1; subst h2; subst h3; rfl
  · intro t p n t' p' n' h
    exact congrArg fingerprintOfKeyData h
  · exact ⟨'j' :: [], 'a' :: ':' :: 'b' :: [], 'c' :: [],
      'a' :: [], 'b' :: ':' :: 'c' :: [],
      by decide, congrArg fingerprintOfKeyData (by decide)⟩

/-- **C9 amended witness** — determinism instantiated on a concrete
triple. -/
theorem getCacheKey_deterministic_witness :
    getCacheKey ('j' :: []) ('f' :: []) ('n' :: []) =
      getCacheKey ('j' :: []) ('f' :: []) ('n' :: []) :=
  getCacheKey_deterministic_not_injective.1
    ('j' :: []) ('f' :: []) ('n' :: []) ('j' :: []) ('f' :: []) ('n' :: [])
    rfl rfl rfl

end Lssh
